import Mathlib

/-!
Verification development for the sales analytics repository
(src/data_loader.py and src/analysis.py).

Modelling conventions:
* pandas float values are modelled as exact rationals (ℚ); a missing value
  (NaN) is modelled as `none` in `Option ℚ`.  Arithmetic on present values is
  exact; every comparison against a NaN is false, exactly as in IEEE floats,
  which is captured by pattern matching on the options.
* a DataFrame is a `SalesTable`: a timestamp index (timestamps as naturals)
  plus a list of named columns; `numeric` records the pandas dtype check
  `select_dtypes(include=[np.number])`.
* the sample standard deviation `std = sqrt var` is irrational, so code that
  compares `|x - mean| / std > t` is embedded by the equivalent square-free
  test on the sample variance; the equivalence with the real-number formula
  (using `Real.sqrt`) is proved in the z-score theorem below.
-/

namespace SalesSpec

/-- A raw spreadsheet cell as read by pandas, before normalization.
`asDate` abstracts `pd.to_datetime` on this cell: `some t` when the cell
parses as a timestamp `t`, `none` when parsing raises.  `asNum` is the
cell's numeric value when its column is numeric (`none` models NaN). -/
structure Cell where
  asDate : Option Nat
  asNum : Option ℚ
deriving DecidableEq

/-- A raw column as read from a file: header name, whether its pandas dtype
is numeric, and its cells. -/
structure RawCol where
  name : String
  numeric : Bool
  cells : List Cell
deriving DecidableEq

/-- A raw table as returned by `pd.read_excel` / `pd.read_csv`. -/
structure RawTable where
  cols : List RawCol
deriving DecidableEq

/-- A normalized column of a `SalesTable`: values are aligned to the date
index, `none` is a missing value (NaN). -/
structure Col where
  name : String
  numeric : Bool
  vals : List (Option ℚ)
deriving DecidableEq

/-- The normalized date-indexed table produced by ingestion
(`load_sales_data`): a timestamp index plus named data columns. -/
structure SalesTable where
  index : List Nat
  cols : List Col
deriving DecidableEq

/-- The empty DataFrame `pd.DataFrame()`. -/
def emptyTable : SalesTable := ⟨[], []⟩

/-- pandas `df.empty`: true when either axis has length zero. -/
def isEmptySales (df : SalesTable) : Bool :=
  df.index.isEmpty || df.cols.isEmpty

/-- Well-formedness of a table: every column is aligned with the index. -/
def WfTable (df : SalesTable) : Prop :=
  ∀ c ∈ df.cols, c.vals.length = df.index.length

instance (df : SalesTable) : Decidable (WfTable df) :=
  List.decidableBAll _ df.cols

/-- pandas `df.select_dtypes(include=[np.number]).columns` on a table. -/
def numericCols (df : SalesTable) : List Col :=
  df.cols.filter (fun c => c.numeric)

/-- The present (non-NaN) values of a column, in row order. -/
def someVals (xs : List (Option ℚ)) : List ℚ :=
  xs.filterMap id

/-- pandas `series.count()`: number of non-missing values. -/
def cCount (xs : List (Option ℚ)) : ℕ :=
  (someVals xs).length

/-- pandas `series.sum()` (skipna). -/
def cSum (xs : List (Option ℚ)) : ℚ :=
  (someVals xs).sum

/-- pandas `series.mean()` (skipna): sum of present values over their count.
For an all-missing column pandas yields NaN; here division by zero yields the
junk value 0, which is only ever used under a nonzero-count guard. -/
def cMean (xs : List (Option ℚ)) : ℚ :=
  cSum xs / (cCount xs : ℚ)

/-- pandas `series.std()` squared, i.e. the sample variance with `ddof = 1`
over the present values; `none` models the NaN produced when fewer than two
values are present.  The source's `std` is the square root of this. -/
def cVar (xs : List (Option ℚ)) : Option ℚ :=
  if cCount xs ≤ 1 then none
  else some (((someVals xs).map (fun v => (v - cMean xs) ^ 2)).sum / ((cCount xs : ℚ) - 1))

/-- pandas `series.min()` over present values (junk 0 when all missing). -/
def cMinQ (xs : List (Option ℚ)) : ℚ :=
  match someVals xs with
  | [] => 0
  | v :: vs => vs.foldl min v

/-- pandas `series.max()` over present values (junk 0 when all missing). -/
def cMaxQ (xs : List (Option ℚ)) : ℚ :=
  match someVals xs with
  | [] => 0
  | v :: vs => vs.foldl max v

/-- Insert into a sorted list (helper for sorting values). -/
def insertQ (x : ℚ) : List ℚ → List ℚ
  | [] => [x]
  | y :: ys => if x ≤ y then x :: y :: ys else y :: insertQ x ys

/-- Insertion sort of rational values, used for median and quantiles. -/
def sortQ : List ℚ → List ℚ
  | [] => []
  | x :: xs => insertQ x (sortQ xs)

/-- pandas `series.median()` over present values (junk 0 when all missing). -/
def cMedian (xs : List (Option ℚ)) : ℚ :=
  let v := sortQ (someVals xs)
  let n := v.length
  if n = 0 then 0
  else if n % 2 = 1 then v.getD (n / 2) 0
  else (v.getD (n / 2 - 1) 0 + v.getD (n / 2) 0) / 2

/-- pandas `series.quantile(q)` with the default linear interpolation over
the sorted present values; `none` models the NaN returned when no value is
present. -/
def quantileQ (xs : List (Option ℚ)) (q : ℚ) : Option ℚ :=
  match sortQ (someVals xs) with
  | [] => none
  | v :: vs =>
    let s := v :: vs
    let h : ℚ := ((s.length : ℚ) - 1) * q
    let i : ℕ := (⌊h⌋).toNat
    some (s.getD i 0 + (h - (i : ℚ)) * (s.getD (i + 1) 0 - s.getD i 0))

/-- Python `int(x)` on a float: truncation toward zero. -/
def ratTrunc (q : ℚ) : ℤ :=
  if 0 ≤ q then ⌊q⌋ else ⌈q⌉

/-- Embedding of `_calculate_growth_rate` (src/analysis.py lines 87-111):
0 when the series has fewer than two points or starts at exactly zero,
otherwise the percentage change between first and last value. -/
def growthRate (s : List ℚ) : ℚ :=
  if s.length < 2 then 0
  else if s.headD 0 = 0 then 0
  else (s.getLastD 0 - s.headD 0) / s.headD 0 * 100

/-- C2: `growth_rate` returns 0 on series shorter than two points or whose
first value is exactly zero, and otherwise `(last - first) / first * 100`;
in particular `growth_rate [100, 120, 150] = 50`. -/
theorem growth_rate_spec (s : List ℚ) :
    (s.length < 2 → growthRate s = 0) ∧
    (2 ≤ s.length → s.headD 0 = 0 → growthRate s = 0) ∧
    (2 ≤ s.length → s.headD 0 ≠ 0 →
      growthRate s = (s.getLastD 0 - s.headD 0) / s.headD 0 * 100) ∧
    growthRate [100, 120, 150] = 50 := by
  refine ⟨fun h => ?_, fun h h0 => ?_, fun h h0 => ?_, by norm_num [growthRate]⟩
  · unfold growthRate
    rw [if_pos h]
  · unfold growthRate
    rw [if_neg (Nat.not_lt.mpr h), if_pos h0]
  · unfold growthRate
    rw [if_neg (Nat.not_lt.mpr h), if_neg h0]

/-- Witness for `growth_rate_spec`: concrete series exercising each branch. -/
theorem growth_rate_spec_witness :
    growthRate [7] = 0 ∧ growthRate [0, 5, 9] = 0 ∧
    growthRate [100, 120, 150] = (150 - 100) / 100 * 100 := by
  refine ⟨(growth_rate_spec [7]).1 (by decide), ?_, ?_⟩
  · exact (growth_rate_spec [0, 5, 9]).2.1 (by decide) (by norm_num)
  · exact (growth_rate_spec [100, 120, 150]).2.2.1 (by decide) (by norm_num)

/-- pandas `df.sum(axis=1)`: the daily-total series, the row-wise sum of the
numeric columns' present values (skipna). -/
def rowTotals (df : SalesTable) : List ℚ :=
  (List.range df.index.length).map
    (fun j => ((numericCols df).map (fun c => (c.vals.getD j none).getD 0)).sum)

/-- Maximum of a rational list (junk 0 when empty), as `series.max()`. -/
def listMaxQ (l : List ℚ) : ℚ :=
  match l with
  | [] => 0
  | v :: vs => vs.foldl max v

/-- Minimum of a rational list (junk 0 when empty), as `series.min()`. -/
def listMinQ (l : List ℚ) : ℚ :=
  match l with
  | [] => 0
  | v :: vs => vs.foldl min v

/-- Embedding of `calculate_kpi_metrics` (src/analysis.py lines 50-84).
The returned dict is an association list in insertion order; Python ints and
floats are both carried as ℚ (`int(...)` is truncation toward zero). -/
def calculateKpiMetrics (df : SalesTable) : List (String × ℚ) :=
  if isEmptySales df then
    [("total_sessions", 0), ("avg_daily_sessions", 0), ("max_daily_sessions", 0)]
  else
    [("total_sessions", ((ratTrunc (rowTotals df).sum : ℤ) : ℚ)),
     ("avg_daily_sessions", (rowTotals df).sum / ((rowTotals df).length : ℚ)),
     ("max_daily_sessions", ((ratTrunc (listMaxQ (rowTotals df)) : ℤ) : ℚ)),
     ("min_daily_sessions", ((ratTrunc (listMinQ (rowTotals df)) : ℤ) : ℚ)),
     ("days_count", (df.index.length : ℚ)),
     ("growth_rate", growthRate (rowTotals df))]

/-- C3: on an empty table `calculate_kpi_metrics` returns exactly the
three-entry fallback `total = 0, average = 0.0, max = 0`; the min, day-count
and growth-rate keys of the non-empty result are absent. -/
theorem kpi_metrics_empty (df : SalesTable) (h : isEmptySales df = true) :
    calculateKpiMetrics df =
      [("total_sessions", 0), ("avg_daily_sessions", 0), ("max_daily_sessions", 0)] ∧
    (calculateKpiMetrics df).lookup "min_daily_sessions" = none ∧
    (calculateKpiMetrics df).lookup "days_count" = none ∧
    (calculateKpiMetrics df).lookup "growth_rate" = none := by
  have hk : calculateKpiMetrics df =
      [("total_sessions", 0), ("avg_daily_sessions", 0), ("max_daily_sessions", 0)] := by
    unfold calculateKpiMetrics
    rw [if_pos h]
  refine ⟨hk, ?_, ?_, ?_⟩ <;> rw [hk] <;> rfl

/-- Witness for `kpi_metrics_empty` at the empty table. -/
theorem kpi_metrics_empty_witness :
    isEmptySales emptyTable = true ∧
    calculateKpiMetrics emptyTable =
      [("total_sessions", 0), ("avg_daily_sessions", 0), ("max_daily_sessions", 0)] :=
  ⟨by decide, (kpi_metrics_empty emptyTable (by decide)).1⟩

/-- Filter a list by a boolean mask, as pandas boolean indexing `df[mask]`
does (row order preserved). -/
def maskFilter (mask : List Bool) (xs : List α) : List α :=
  (mask.zip xs).filterMap (fun p => if p.1 then some p.2 else none)

/-- The z-score anomaly test of `detect_anomalies` on one entry:
`np.abs((x - mean) / std) > threshold` with `std = sqrt var`.  NaN entries,
a NaN variance (fewer than two values) and a zero variance all compare
false, as the float code does; for a positive variance the square-root-free
test `(x - mean)^2 > t^2 * var` (together with `t < 0` always flagging) is
exactly `|x - mean| / sqrt var > t`, as proved in `zFlag_iff_real`. -/
def zFlag (m : ℚ) (varOpt : Option ℚ) (t : ℚ) (x : Option ℚ) : Bool :=
  match x, varOpt with
  | some v, some V =>
    if V = 0 then false
    else if t < 0 then true
    else decide ((v - m) ^ 2 > t ^ 2 * V)
  | _, _ => false

/-- The IQR anomaly test of `detect_anomalies` on one entry:
outside `[Q1 - t * IQR, Q3 + t * IQR]`.  NaN entries and NaN quartiles
(no present values) compare false. -/
def iFlag (q1Opt q3Opt : Option ℚ) (t : ℚ) (x : Option ℚ) : Bool :=
  match x, q1Opt, q3Opt with
  | some v, some q1, some q3 =>
    decide (v < q1 - t * (q3 - q1) ∨ q3 + t * (q3 - q1) < v)
  | _, _, _ => false

/-- The anomaly mask of one column for the `zscore` method. -/
def zMask (t : ℚ) (xs : List (Option ℚ)) : List Bool :=
  xs.map (zFlag (cMean xs) (cVar xs) t)

/-- The anomaly mask of one column for the `iqr` method. -/
def iMask (t : ℚ) (xs : List (Option ℚ)) : List Bool :=
  xs.map (iFlag (quantileQ xs (1 / 4)) (quantileQ xs (3 / 4)) t)

/-- `zip(df[mask].index, df.loc[mask, column])`: the flagged
(timestamp, value) pairs of one column, in row order. -/
def anomalyPairs (idx : List Nat) (xs : List (Option ℚ)) (mask : List Bool) :
    List (Nat × ℚ) :=
  ((maskFilter mask idx).zip (maskFilter mask xs)).map (fun p => (p.1, p.2.getD 0))

/-- Embedding of `detect_anomalies` (src/analysis.py lines 151-198): per
numeric column, a mask is built for the `zscore` or `iqr` method and the
flagged (timestamp, value) pairs recorded under the column's name; any other
method hits `continue`, so the column is absent from the result. -/
def detectAnomalies (df : SalesTable) (t : ℚ) (method : String) :
    List (String × List (Nat × ℚ)) :=
  if isEmptySales df then []
  else
    (numericCols df).filterMap (fun c =>
      if method = "zscore" then some (c.name, anomalyPairs df.index c.vals (zMask t c.vals))
      else if method = "iqr" then some (c.name, anomalyPairs df.index c.vals (iMask t c.vals))
      else none)

/-- C6: `detect_anomalies` with a method other than `zscore` or `iqr` returns
a result with every column absent (the empty dict), and does not fail. -/
theorem detect_anomalies_unknown_method (df : SalesTable) (t : ℚ) (method : String)
    (h1 : method ≠ "zscore") (h2 : method ≠ "iqr") :
    detectAnomalies df t method = [] := by
  unfold detectAnomalies
  split
  · rfl
  · exact List.filterMap_eq_nil_iff.mpr (fun c _ => by simp [h1, h2])

/-- Witness for `detect_anomalies_unknown_method` at a concrete table and
method string. -/
theorem detect_anomalies_unknown_method_witness :
    detectAnomalies ⟨[0, 1], [⟨"A", true, [some 1, some 100]⟩]⟩ 2 "median" = [] :=
  detect_anomalies_unknown_method _ 2 "median" (by decide) (by decide)

lemma mem_someVals {xs : List (Option ℚ)} {v : ℚ} (h : v ∈ someVals xs) :
    some v ∈ xs := by
  unfold someVals at h
  rcases List.mem_filterMap.mp h with ⟨o, ho, hv⟩
  cases o with
  | none => cases hv
  | some w => cases hv; exact ho

lemma cMean_const {xs : List (Option ℚ)} {a : ℚ} (hall : ∀ v ∈ xs, v = some a)
    (h0 : cCount xs ≠ 0) : cMean xs = a := by
  have hs : ∀ x ∈ someVals xs, x = a := by
    intro x hx
    have := hall _ (mem_someVals hx)
    exact Option.some.inj this
  have hsum : cSum xs = (cCount xs : ℚ) * a := by
    unfold cSum cCount
    rw [List.sum_eq_card_nsmul _ a hs, nsmul_eq_mul]
  have hcast : (cCount xs : ℚ) ≠ 0 := by exact_mod_cast h0
  unfold cMean
  rw [hsum]
  field_simp

lemma cVar_const {xs : List (Option ℚ)} {a : ℚ} (hall : ∀ v ∈ xs, v = some a) :
    cVar xs = none ∨ cVar xs = some 0 := by
  unfold cVar
  by_cases h : cCount xs ≤ 1
  · left
    rw [if_pos h]
  · right
    rw [if_neg h]
    have h0 : cCount xs ≠ 0 := by omega
    have hz : (((someVals xs).map (fun v => (v - cMean xs) ^ 2)).sum) = 0 := by
      refine List.sum_eq_zero (fun x hx => ?_)
      rcases List.mem_map.mp hx with ⟨v, hv, rfl⟩
      have hva : v = a := Option.some.inj (hall _ (mem_someVals hv))
      rw [hva, cMean_const hall h0, sub_self]
      ring
    rw [hz, zero_div]

lemma maskFilter_false {mask : List Bool} (h : ∀ b ∈ mask, b = false)
    (xs : List α) : maskFilter mask xs = [] := by
  refine List.filterMap_eq_nil_iff.mpr (fun p hp => ?_)
  have hb : p.1 = false := h _ (List.of_mem_zip hp).1
  rw [hb]
  rfl

/-- C10: on a numeric column whose values are all equal (zero standard
deviation) the z-score method flags nothing: the result still holds an entry
for that column, and its anomaly list is empty, for every threshold. -/
theorem detect_anomalies_constant_column (df : SalesTable) (t : ℚ) (c : Col)
    (a : ℚ) (hc : c ∈ df.cols) (hn : c.numeric = true)
    (hne : isEmptySales df = false) (hall : ∀ v ∈ c.vals, v = some a) :
    (c.name, ([] : List (Nat × ℚ))) ∈ detectAnomalies df t "zscore" := by
  have hmem : c ∈ numericCols df := List.mem_filter.mpr ⟨hc, hn⟩
  have hmask : ∀ b ∈ zMask t c.vals, b = false := by
    intro b hb
    rcases List.mem_map.mp hb with ⟨x, hx, rfl⟩
    have hxa : x = some a := hall _ hx
    subst hxa
    rcases cVar_const hall with hV | hV <;> rw [hV]
    · rfl
    · simp [zFlag]
  have hpairs : anomalyPairs df.index c.vals (zMask t c.vals) = [] := by
    unfold anomalyPairs
    rw [maskFilter_false hmask df.index]
    rfl
  unfold detectAnomalies
  rw [if_neg (by simp [hne])]
  refine List.mem_filterMap.mpr ⟨c, hmem, ?_⟩
  rw [if_pos rfl, hpairs]

/-- Witness for `detect_anomalies_constant_column`: a two-row constant
column with a negative threshold still produces an empty anomaly list. -/
theorem detect_anomalies_constant_column_witness :
    (("A", ([] : List (Nat × ℚ))) ∈
      detectAnomalies ⟨[0, 1], [⟨"A", true, [some 5, some 5]⟩]⟩ (-1) "zscore") :=
  detect_anomalies_constant_column _ (-1) ⟨"A", true, [some 5, some 5]⟩ 5
    (by decide) (by decide) (by decide) (by decide)

/-- The per-column statistics record built by `calculate_basic_statistics`.
`var` is the square of the source's `std` (sample variance, `none` for the
NaN std of a column with fewer than two present values). -/
structure ColStats where
  mean : ℚ
  median : ℚ
  var : Option ℚ
  min : ℚ
  max : ℚ
  sum : ℚ
  count : ℕ
deriving DecidableEq

/-- The statistics dict entry of one column (src/analysis.py lines 33-41). -/
def mkStats (xs : List (Option ℚ)) : ColStats :=
  ⟨cMean xs, cMedian xs, cVar xs, cMinQ xs, cMaxQ xs, cSum xs, cCount xs⟩

/-- Embedding of `calculate_basic_statistics` (src/analysis.py lines 15-47):
an empty table yields the empty dict, otherwise one record per numeric
column, keyed by column name in column order. -/
def calculateBasicStatistics (df : SalesTable) : List (String × ColStats) :=
  if isEmptySales df then []
  else (numericCols df).map (fun c => (c.name, mkStats c.vals))

lemma foldl_max_bounds (l : List ℚ) :
    ∀ a : ℚ, a ≤ l.foldl max a ∧ ∀ x ∈ l, x ≤ l.foldl max a := by
  induction l with
  | nil => intro a; simp
  | cons y t ih =>
    intro a
    have h := ih (max a y)
    refine ⟨le_trans (le_max_left a y) h.1, fun x hx => ?_⟩
    rcases List.mem_cons.mp hx with rfl | hxt
    · exact le_trans (le_max_right a x) h.1
    · exact h.2 x hxt

lemma foldl_min_bounds (l : List ℚ) :
    ∀ a : ℚ, l.foldl min a ≤ a ∧ ∀ x ∈ l, l.foldl min a ≤ x := by
  induction l with
  | nil => intro a; simp
  | cons y t ih =>
    intro a
    have h := ih (min a y)
    refine ⟨le_trans h.1 (min_le_left a y), fun x hx => ?_⟩
    rcases List.mem_cons.mp hx with rfl | hxt
    · exact le_trans h.1 (min_le_right a x)
    · exact h.2 x hxt

lemma le_cMaxQ {xs : List (Option ℚ)} : ∀ x ∈ someVals xs, x ≤ cMaxQ xs := by
  intro x hx
  unfold cMaxQ
  cases h : someVals xs with
  | nil => rw [h] at hx; cases hx
  | cons v vs =>
    rw [h] at hx
    rcases List.mem_cons.mp hx with rfl | hxt
    · exact (foldl_max_bounds vs x).1
    · exact (foldl_max_bounds vs v).2 x hxt

lemma cMinQ_le {xs : List (Option ℚ)} : ∀ x ∈ someVals xs, cMinQ xs ≤ x := by
  intro x hx
  unfold cMinQ
  cases h : someVals xs with
  | nil => rw [h] at hx; cases hx
  | cons v vs =>
    rw [h] at hx
    rcases List.mem_cons.mp hx with rfl | hxt
    · exact (foldl_min_bounds vs x).1
    · exact (foldl_min_bounds vs v).2 x hxt

lemma cMean_le_cMaxQ {xs : List (Option ℚ)} (h : 1 ≤ cCount xs) :
    cMean xs ≤ cMaxQ xs := by
  have hpos : (0 : ℚ) < (cCount xs : ℚ) := by exact_mod_cast h
  have hsum : cSum xs ≤ (cCount xs : ℚ) * cMaxQ xs := by
    have := List.sum_le_card_nsmul (someVals xs) (cMaxQ xs) le_cMaxQ
    rwa [nsmul_eq_mul] at this
  unfold cMean
  rw [div_le_iff₀ hpos]
  rw [mul_comm] at hsum
  exact hsum

lemma cMinQ_le_cMean {xs : List (Option ℚ)} (h : 1 ≤ cCount xs) :
    cMinQ xs ≤ cMean xs := by
  have hpos : (0 : ℚ) < (cCount xs : ℚ) := by exact_mod_cast h
  have hsum : (cCount xs : ℚ) * cMinQ xs ≤ cSum xs := by
    have := List.card_nsmul_le_sum (someVals xs) (cMinQ xs) cMinQ_le
    rwa [nsmul_eq_mul] at this
  unfold cMean
  rw [le_div_iff₀ hpos, mul_comm]
  exact hsum

/-- C8: for a numeric column of a non-empty table, `calculate_basic_statistics`
holds a record under that column's name whose `count` is the number of present
(non-missing) values, built over the present values only, and whose
min/mean/max satisfy `min ≤ mean ≤ max` once at least one value is present;
an empty table yields the empty dict. -/
theorem basic_statistics_spec (df : SalesTable) (c : Col) (hc : c ∈ df.cols)
    (hn : c.numeric = true) (hne : isEmptySales df = false)
    (hcnt : 1 ≤ cCount c.vals) :
    (c.name, mkStats c.vals) ∈ calculateBasicStatistics df ∧
    (mkStats c.vals).count = (someVals c.vals).length ∧
    (mkStats c.vals).min ≤ (mkStats c.vals).mean ∧
    (mkStats c.vals).mean ≤ (mkStats c.vals).max ∧
    (∀ df2 : SalesTable, isEmptySales df2 = true →
      calculateBasicStatistics df2 = []) := by
  refine ⟨?_, rfl, cMinQ_le_cMean hcnt, cMean_le_cMaxQ hcnt, ?_⟩
  · unfold calculateBasicStatistics
    rw [if_neg (by simp [hne])]
    exact List.mem_map.mpr ⟨c, List.mem_filter.mpr ⟨hc, hn⟩, rfl⟩
  · intro df2 h2
    unfold calculateBasicStatistics
    rw [if_pos h2]

/-- Witness for `basic_statistics_spec` at a concrete two-row table. -/
theorem basic_statistics_spec_witness :
    (("A", mkStats [some 3, some 5]) ∈
      calculateBasicStatistics ⟨[0, 1], [⟨"A", true, [some 3, some 5]⟩]⟩) ∧
    (mkStats [some 3, some 5]).min ≤ (mkStats [some 3, some 5]).mean := by
  have h := basic_statistics_spec ⟨[0, 1], [⟨"A", true, [some 3, some 5]⟩]⟩
    ⟨"A", true, [some 3, some 5]⟩ (by decide) (by decide) (by decide) (by decide)
  exact ⟨h.1, h.2.2.1⟩

lemma maskFilter_cons (b : Bool) (m : List Bool) (y : α) (ys : List α) :
    maskFilter (b :: m) (y :: ys) =
      if b then y :: maskFilter m ys else maskFilter m ys := by
  cases b <;> simp [maskFilter]

/-- Boolean-mask row selection followed by zipping dates with values is the
same as filtering the (timestamp, value) rows directly, when the mask is
computed value-wise by a flag that never fires on a missing value. -/
lemma anomalyPairs_map_flag (flag : Option ℚ → Bool) (h0 : flag none = false) :
    ∀ (idx : List Nat) (xs : List (Option ℚ)), idx.length = xs.length →
    anomalyPairs idx xs (xs.map flag) =
      (idx.zip xs).filterMap (fun p =>
        match p.2 with
        | some v => if flag (some v) = true then some (p.1, v) else none
        | none => none) := by
  intro idx xs
  induction xs generalizing idx with
  | nil =>
    intro h
    have hidx : idx = [] := List.length_eq_zero.mp (by simpa using h)
    subst hidx
    rfl
  | cons x xs ih =>
    intro h
    cases idx with
    | nil => simp at h
    | cons i idx' =>
      have h' : idx'.length = xs.length := by simpa using h
      unfold anomalyPairs
      rw [List.map_cons, maskFilter_cons, maskFilter_cons]
      cases x with
      | none =>
        rw [h0]
        simp only [if_false, Bool.false_eq_true, List.zip_cons_cons,
          List.filterMap_cons]
        exact ih idx' h'
      | some v =>
        cases hfv : flag (some v) with
        | false =>
          simp only [if_false, Bool.false_eq_true, List.zip_cons_cons,
            List.filterMap_cons, hfv]
          exact ih idx' h'
        | true =>
          simp only [if_true, List.zip_cons_cons, List.filterMap_cons, hfv,
            List.map_cons, Option.getD_some]
          have htail := ih idx' h'
          unfold anomalyPairs at htail
          rw [htail]

lemma cVar_nonneg {xs : List (Option ℚ)} {V : ℚ} (h : cVar xs = some V) :
    0 ≤ V := by
  unfold cVar at h
  by_cases hc : cCount xs ≤ 1
  · rw [if_pos hc] at h
    cases h
  · rw [if_neg hc] at h
    have hV := (Option.some.inj h).symm
    rw [hV]
    refine div_nonneg (List.sum_nonneg ?_) ?_
    · intro x hx
      rcases List.mem_map.mp hx with ⟨v, _, rfl⟩
      exact sq_nonneg _
    · have h2 : 2 ≤ cCount xs := by omega
      have : (2 : ℚ) ≤ (cCount xs : ℚ) := by exact_mod_cast h2
      linarith

/-- The source's column standard deviation `df[column].std()`, as a real
number: the square root of the sample variance (0 when the variance is NaN,
i.e. fewer than two present values — in that case every float comparison
against the NaN std is false and every division by the 0 stand-in yields 0,
so nothing is flagged either way once the threshold is nonnegative). -/
noncomputable def stdR (xs : List (Option ℚ)) : ℝ :=
  Real.sqrt (((cVar xs).getD 0 : ℚ) : ℝ)

open Classical in
/-- The z-score anomaly rows exactly as the spec states them: the
(timestamp, value) pairs, in row order, of the rows whose present value
satisfies `|value - column_mean| / column_std > threshold` over ℝ. -/
noncomputable def zscoreSpecPairs (idx : List Nat) (xs : List (Option ℚ))
    (t : ℚ) : List (Nat × ℚ) :=
  (idx.zip xs).filterMap (fun p =>
    match p.2 with
    | some v =>
      if |((v : ℚ) : ℝ) - ((cMean xs : ℚ) : ℝ)| / stdR xs > ((t : ℚ) : ℝ) then
        some (p.1, v)
      else none
    | none => none)

/-- The IQR anomaly rows exactly as the spec states them: the rows whose
present value lies outside `[Q1 - t * IQR, Q3 + t * IQR]`, with the
quartiles at the 25th/75th percentile of the column. -/
def iqrSpecPairs (idx : List Nat) (xs : List (Option ℚ)) (t : ℚ) :
    List (Nat × ℚ) :=
  (idx.zip xs).filterMap (fun p =>
    match p.2 with
    | some v =>
      if v < (quantileQ xs (1 / 4)).getD 0 -
            t * ((quantileQ xs (3 / 4)).getD 0 - (quantileQ xs (1 / 4)).getD 0) ∨
          (quantileQ xs (3 / 4)).getD 0 +
            t * ((quantileQ xs (3 / 4)).getD 0 - (quantileQ xs (1 / 4)).getD 0) < v then
        some (p.1, v)
      else none
    | none => none)

/-- The square-root-free z-score test of the embedded code is exactly the
real-number formula of the spec, for a nonnegative threshold. -/
lemma zFlag_iff_real (m V t v : ℚ) (hV : 0 ≤ V) (ht : 0 ≤ t) :
    zFlag m (some V) t (some v) = true ↔
      |((v : ℚ) : ℝ) - ((m : ℚ) : ℝ)| / Real.sqrt ((V : ℚ) : ℝ) > ((t : ℚ) : ℝ) := by
  have htR : (0 : ℝ) ≤ (t : ℚ) := by exact_mod_cast ht
  by_cases hV0 : V = 0
  · subst hV0
    simp only [zFlag, if_pos rfl]
    constructor
    · intro h
      cases h
    · intro h
      rw [Rat.cast_zero, Real.sqrt_zero, div_zero] at h
      exact absurd h (not_lt.mpr htR)
  · have hVpos : (0 : ℚ) < V := lt_of_le_of_ne hV (Ne.symm hV0)
    have hVposR : (0 : ℝ) < ((V : ℚ) : ℝ) := by exact_mod_cast hVpos
    have hspos : (0 : ℝ) < Real.sqrt ((V : ℚ) : ℝ) := Real.sqrt_pos.mpr hVposR
    have hs2 : Real.sqrt ((V : ℚ) : ℝ) * Real.sqrt ((V : ℚ) : ℝ) = ((V : ℚ) : ℝ) :=
      Real.mul_self_sqrt (le_of_lt hVposR)
    simp only [zFlag, if_neg hV0, if_neg (not_lt.mpr ht), decide_eq_true_eq]
    set x : ℝ := ((v : ℚ) : ℝ) - ((m : ℚ) : ℝ) with hx
    constructor
    · intro h
      have hR : (((t : ℚ) : ℝ)) ^ 2 * ((V : ℚ) : ℝ) < x ^ 2 := by
        rw [hx]
        exact_mod_cast h
      rw [gt_iff_lt, lt_div_iff₀ hspos]
      nlinarith [abs_nonneg x, sq_abs x, mul_nonneg htR (le_of_lt hspos),
        sq_nonneg (|x| - ((t : ℚ) : ℝ) * Real.sqrt ((V : ℚ) : ℝ)),
        sq_nonneg (|x| + ((t : ℚ) : ℝ) * Real.sqrt ((V : ℚ) : ℝ))]
    · intro h
      rw [gt_iff_lt, lt_div_iff₀ hspos] at h
      have hR : (((t : ℚ) : ℝ)) ^ 2 * ((V : ℚ) : ℝ) < x ^ 2 := by
        nlinarith [abs_nonneg x, sq_abs x, mul_nonneg htR (le_of_lt hspos)]
      rw [hx] at hR
      exact_mod_cast hR

lemma insertQ_ne_nil (x : ℚ) (l : List ℚ) : insertQ x l ≠ [] := by
  cases l with
  | nil => simp [insertQ]
  | cons y ys =>
    unfold insertQ
    split <;> simp

lemma sortQ_eq_nil_iff (l : List ℚ) : sortQ l = [] ↔ l = [] := by
  cases l with
  | nil => simp [sortQ]
  | cons x xs =>
    simp only [sortQ]
    constructor
    · intro h
      exact absurd h (insertQ_ne_nil x (sortQ xs))
    · intro h
      cases h

lemma quantileQ_isSome {xs : List (Option ℚ)} (h : someVals xs ≠ []) (q : ℚ) :
    ∃ r, quantileQ xs q = some r := by
  unfold quantileQ
  cases hs : sortQ (someVals xs) with
  | nil => exact absurd ((sortQ_eq_nil_iff _).mp hs) h
  | cons v vs => exact ⟨_, rfl⟩

/-- Per-column equality of the embedded z-score output with the spec's
filter formulation. -/
lemma zscore_pairs_eq (idx : List Nat) (xs : List (Option ℚ)) (t : ℚ)
    (ht : 0 ≤ t) (hlen : idx.length = xs.length) :
    anomalyPairs idx xs (zMask t xs) = zscoreSpecPairs idx xs t := by
  unfold zMask
  rw [anomalyPairs_map_flag (zFlag (cMean xs) (cVar xs) t) rfl idx xs hlen]
  unfold zscoreSpecPairs
  refine List.filterMap_congr (fun p hp => ?_)
  cases hpv : p.2 with
  | none => rfl
  | some v =>
    simp only []
    refine if_congr ?_ rfl rfl
    cases hV : cVar xs with
    | none =>
      unfold stdR
      rw [hV]
      simp only [Option.getD_none, Rat.cast_zero, Real.sqrt_zero, div_zero]
      constructor
      · intro h
        cases h
      · intro h
        have htR : (0 : ℝ) ≤ ((t : ℚ) : ℝ) := by exact_mod_cast ht
        exact absurd h (not_lt.mpr htR)
    | some V =>
      unfold stdR
      rw [hV]
      exact zFlag_iff_real (cMean xs) V t v (cVar_nonneg hV) ht

/-- Per-column equality of the embedded IQR output with the spec's filter
formulation. -/
lemma iqr_pairs_eq (idx : List Nat) (xs : List (Option ℚ)) (t : ℚ)
    (hlen : idx.length = xs.length) :
    anomalyPairs idx xs (iMask t xs) = iqrSpecPairs idx xs t := by
  unfold iMask
  rw [anomalyPairs_map_flag (iFlag (quantileQ xs (1 / 4)) (quantileQ xs (3 / 4)) t)
    rfl idx xs hlen]
  unfold iqrSpecPairs
  refine List.filterMap_congr (fun p hp => ?_)
  cases hpv : p.2 with
  | none => rfl
  | some v =>
    simp only []
    refine if_congr ?_ rfl rfl
    have hvmem : v ∈ someVals xs := by
      have : p.2 ∈ xs := (List.of_mem_zip hp).2
      rw [hpv] at this
      exact List.mem_filterMap.mpr ⟨some v, this, rfl⟩
    have hne : someVals xs ≠ [] := List.ne_nil_of_mem hvmem
    rcases quantileQ_isSome hne (1 / 4) with ⟨q1, hq1⟩
    rcases quantileQ_isSome hne (3 / 4) with ⟨q3, hq3⟩
    rw [hq1, hq3]
    simp only [iFlag, Option.getD_some, decide_eq_true_eq]

/-- C5: for every numeric column of a well-formed non-empty table and every
nonnegative threshold, `detect_anomalies` records under that column's name,
with method `zscore`, exactly the rows with
`|value - column_mean| / column_std > threshold` (over ℝ, `std` the sample
standard deviation), and, with method `iqr`, exactly the rows outside
`[Q1 - threshold * IQR, Q3 + threshold * IQR]` with `IQR = Q3 - Q1` at the
25th/75th percentiles; each flagged row contributes its (timestamp, value)
pair in the table's original row order. -/
theorem detect_anomalies_spec (df : SalesTable) (t : ℚ) (c : Col)
    (hwf : WfTable df) (hc : c ∈ df.cols) (hn : c.numeric = true)
    (hne : isEmptySales df = false) (ht : 0 ≤ t) :
    (c.name, zscoreSpecPairs df.index c.vals t) ∈ detectAnomalies df t "zscore" ∧
    (c.name, iqrSpecPairs df.index c.vals t) ∈ detectAnomalies df t "iqr" := by
  have hlen : df.index.length = c.vals.length := (hwf c hc).symm
  have hmem : c ∈ numericCols df := List.mem_filter.mpr ⟨hc, hn⟩
  constructor
  · unfold detectAnomalies
    rw [if_neg (by simp [hne])]
    refine List.mem_filterMap.mpr ⟨c, hmem, ?_⟩
    rw [if_pos rfl, zscore_pairs_eq df.index c.vals t ht hlen]
  · unfold detectAnomalies
    rw [if_neg (by simp [hne])]
    refine List.mem_filterMap.mpr ⟨c, hmem, ?_⟩
    rw [if_neg (by decide), if_pos rfl, iqr_pairs_eq df.index c.vals t hlen]

/-- Witness for `detect_anomalies_spec` at a concrete five-row table. -/
theorem detect_anomalies_spec_witness :
    (("A", zscoreSpecPairs [0, 1, 2, 3, 4]
        [some 1, some 2, some 1, some 2, some 100] 2) ∈
      detectAnomalies
        ⟨[0, 1, 2, 3, 4], [⟨"A", true, [some 1, some 2, some 1, some 2, some 100]⟩]⟩
        2 "zscore") ∧
    (("A", iqrSpecPairs [0, 1, 2, 3, 4]
        [some 1, some 2, some 1, some 2, some 100] 2) ∈
      detectAnomalies
        ⟨[0, 1, 2, 3, 4], [⟨"A", true, [some 1, some 2, some 1, some 2, some 100]⟩]⟩
        2 "iqr") :=
  detect_anomalies_spec
    ⟨[0, 1, 2, 3, 4], [⟨"A", true, [some 1, some 2, some 1, some 2, some 100]⟩]⟩
    2 ⟨"A", true, [some 1, some 2, some 1, some 2, some 100]⟩
    (by decide) (by decide) (by decide) (by decide) (by norm_num)

/-- The name of an appended moving-average column, `f"{col}_MA{window}"`. -/
def maName (nm : String) (w : ℕ) : String := nm ++ "_MA" ++ toString w

/-- pandas column assignment `result[nm] = vs`: overwrite in place when a
column of that name exists, else append on the right (dtype float, hence
numeric). -/
def setCol (cols : List Col) (nm : String) (vs : List (Option ℚ)) : List Col :=
  if cols.any (fun c => c.name = nm) then
    cols.map (fun c => if c.name = nm then ⟨nm, true, vs⟩ else c)
  else cols ++ [⟨nm, true, vs⟩]

/-- pandas `series.rolling(window=w).mean()`: entry `j` is the mean of the
`w` trailing values by row position; it is missing while fewer than `w` rows
are available, when any value in the window is missing (default
`min_periods = w`), and everywhere for `w = 0`. -/
def rollingMean (w : ℕ) (xs : List (Option ℚ)) : List (Option ℚ) :=
  (List.range xs.length).map (fun j =>
    if w = 0 ∨ j + 1 < w then none
    else if ((xs.drop (j + 1 - w)).take w).all (fun o => o.isSome) then
      some ((someVals ((xs.drop (j + 1 - w)).take w)).sum / (w : ℚ))
    else none)

/-- The all-numeric-columns branch of `calculate_moving_average`: one
moving-average column appended per numeric column of the input. -/
def movingAverageAll (df : SalesTable) (w : ℕ) : SalesTable :=
  ⟨df.index,
    (numericCols df).foldl
      (fun acc c => setCol acc (maName c.name w) (rollingMean w c.vals)) df.cols⟩

/-- The named-column branch of `calculate_moving_average`, dispatching on
the lookup of the named column: a present numeric column gets its single
moving-average column appended; a present non-numeric one makes `rolling`
raise, which the handler turns into returning the input unchanged; an
absent name falls through to the all-numeric-columns branch. -/
def movingAverageNamed (df : SalesTable) (w : ℕ) (cn : String) :
    Option Col → SalesTable
  | some c =>
    if c.numeric then
      ⟨df.index, setCol df.cols (maName cn w) (rollingMean w c.vals)⟩
    else df
  | none => movingAverageAll df w

/-- Embedding of `calculate_moving_average` (src/analysis.py lines 114-148).
An empty input returns `pd.DataFrame()`.  The Python guard
`if column and column in df.columns` treats an empty-string column argument
as absent (falsy), hence the `cn ≠ ""` test. -/
def calculateMovingAverage (df : SalesTable) (w : ℕ) :
    Option String → SalesTable
  | some cn =>
    if isEmptySales df then emptyTable
    else if cn ≠ "" then
      movingAverageNamed df w cn (df.cols.find? (fun c => c.name = cn))
    else movingAverageAll df w
  | none => if isEmptySales df then emptyTable else movingAverageAll df w

/-- The float mean of a window of raw values, as `rolling(w).mean()` takes
it: missing (NaN) when the window is empty (window 0) or contains a missing
value, else the sum of the values over their count. -/
def naMean (ws : List (Option ℚ)) : Option ℚ :=
  (ws.mapM id).bind
    (fun vs => if vs = [] then none else some (vs.sum / (vs.length : ℚ)))

/-- The effect on one column of a batch `A` of pandas column assignments
with pairwise-distinct names: overwritten in place when some assignment
carries its name, untouched otherwise. -/
def applyAssign (A : List (String × List (Option ℚ))) (d : Col) : Col :=
  match A.find? (fun q => q.1 = d.name) with
  | some q => ⟨q.1, true, q.2⟩
  | none => d

/-- The effect of a batch of distinct-named pandas column assignments on a
table's columns: same-named columns overwritten in place, fresh names
appended on the right in assignment order. -/
def assignCols (orig : List Col) (A : List (String × List (Option ℚ))) :
    List Col :=
  orig.map (applyAssign A) ++
    (A.filter (fun q => !(orig.any (fun d => d.name = q.1)))).map
      (fun q => ⟨q.1, true, q.2⟩)

lemma any_name_iff_mem {cols : List Col} {nm : String} :
    cols.any (fun c => c.name = nm) = true ↔ nm ∈ cols.map Col.name := by
  rw [List.any_eq_true]
  constructor
  · rintro ⟨d, hd, hdn⟩
    exact List.mem_map.mpr ⟨d, hd, by simpa using hdn⟩
  · rintro h
    rcases List.mem_map.mp h with ⟨d, hd, hdn⟩
    exact ⟨d, hd, by simpa using hdn⟩

lemma setCol_overwrite {cols : List Col} {nm : String}
    (h : cols.any (fun c => c.name = nm) = true) (vs : List (Option ℚ)) :
    setCol cols nm vs = cols.map (fun c =>
      if c.name = nm then ⟨nm, true, vs⟩ else c) := by
  unfold setCol
  rw [if_pos h]

lemma setCol_append {cols : List Col} {nm : String}
    (h : cols.any (fun c => c.name = nm) = false) (vs : List (Option ℚ)) :
    setCol cols nm vs = cols ++ [⟨nm, true, vs⟩] := by
  unfold setCol
  rw [if_neg (by simp [h])]

lemma find?_name_eq_none {A : List (String × List (Option ℚ))} {nm : String}
    (h : nm ∉ A.map Prod.fst) : A.find? (fun q => q.1 = nm) = none :=
  List.find?_eq_none.mpr (fun q hq hdec =>
    h (List.mem_map.mpr ⟨q, hq, of_decide_eq_true hdec⟩))

lemma any_name_map_overwrite (orig : List Col) (p1 : String)
    (v : List (Option ℚ)) (nm : String) :
    (orig.map (fun c => if c.name = p1 then (⟨p1, true, v⟩ : Col) else c)).any
      (fun d => d.name = nm) = orig.any (fun d => d.name = nm) := by
  rw [List.any_map]
  have hfun : ((fun d : Col => decide (d.name = nm)) ∘
      (fun c : Col => if c.name = p1 then (⟨p1, true, v⟩ : Col) else c)) =
      (fun d : Col => decide (d.name = nm)) := by
    funext d
    by_cases hdn : d.name = p1
    · simp [Function.comp, hdn]
    · simp [Function.comp, hdn]
  rw [hfun]

/-- A batch of column assignments with pairwise-distinct names, performed
one at a time (the source loop), equals its declarative description:
same-named columns overwritten in place, fresh names appended in order. -/
lemma foldl_setCol_assign :
    ∀ (A : List (String × List (Option ℚ))) (orig : List Col),
      (A.map Prod.fst).Nodup →
      A.foldl (fun a q => setCol a q.1 q.2) orig = assignCols orig A := by
  intro A
  induction A with
  | nil =>
    intro orig _
    rw [List.foldl_nil]
    unfold assignCols
    rw [List.filter_nil, List.map_nil, List.append_nil]
    symm
    calc orig.map (applyAssign []) = orig.map (fun d => d) :=
          List.map_congr_left (fun d _ => rfl)
      _ = orig := List.map_id' _
  | cons p A' ih =>
    intro orig hA
    rw [List.map_cons, List.nodup_cons] at hA
    have hfindp : A'.find? (fun q => q.1 = p.1) = none := find?_name_eq_none hA.1
    rw [List.foldl_cons, ih _ hA.2]
    by_cases hmem : orig.any (fun d => d.name = p.1) = true
    · rw [setCol_overwrite hmem]
      unfold assignCols
      congr 1
      · rw [List.map_map]
        refine List.map_congr_left (fun d _ => ?_)
        simp only [Function.comp_apply]
        by_cases hdn : d.name = p.1
        · rw [if_pos hdn]
          unfold applyAssign
          dsimp only
          rw [hfindp, List.find?_cons_of_pos _ (by simp [hdn])]
        · rw [if_neg hdn]
          unfold applyAssign
          rw [List.find?_cons_of_neg _ (by simpa using fun h => hdn h.symm)]
      · rw [List.filter_cons]
        rw [show (!(orig.any (fun d => d.name = p.1))) = false from by rw [hmem]; rfl]
        simp only [Bool.false_eq_true, if_false]
        refine congrArg (List.map _) (List.filter_congr (fun q _ => ?_))
        rw [any_name_map_overwrite]
    · have hmemf : orig.any (fun d => d.name = p.1) = false := by
        cases h : orig.any (fun d => d.name = p.1)
        · rfl
        · exact absurd h hmem
      have hfreshcols : ∀ d ∈ orig, ¬ d.name = p.1 := by
        intro d hd
        rw [List.any_eq_false] at hmemf
        have := hmemf d hd
        simpa using this
      rw [setCol_append hmemf]
      unfold assignCols
      rw [List.map_append]
      have hmkp : [(⟨p.1, true, p.2⟩ : Col)].map (applyAssign A') =
          [⟨p.1, true, p.2⟩] := by
        simp only [List.map_cons, List.map_nil]
        unfold applyAssign
        dsimp only
        rw [hfindp]
      have hmaporig : orig.map (applyAssign A') =
          orig.map (applyAssign (p :: A')) := by
        refine List.map_congr_left (fun d hd => ?_)
        unfold applyAssign
        rw [List.find?_cons_of_neg _ (by simpa using fun h => hfreshcols d hd h.symm)]
      have hfilt : A'.filter (fun q =>
          !((orig ++ [(⟨p.1, true, p.2⟩ : Col)]).any (fun d => d.name = q.1))) =
          A'.filter (fun q => !(orig.any (fun d => d.name = q.1))) := by
        refine List.filter_congr (fun q hq => ?_)
        have hqne : ¬ p.1 = q.1 := fun h => hA.1 (h ▸ List.mem_map.mpr ⟨q, hq, rfl⟩)
        rw [List.any_append]
        simp [hqne]
      rw [hmkp, hmaporig, hfilt, List.append_assoc, List.singleton_append,
        List.filter_cons]
      rw [show (!(orig.any (fun d => d.name = p.1))) = true from by rw [hmemf]; rfl]
      rw [if_pos rfl, List.map_cons]

lemma str_append_right_cancel {a b s : String} (h : a ++ s = b ++ s) : a = b := by
  have hd := congrArg String.data h
  rw [String.data_append a s, String.data_append b s] at hd
  have hcancel := List.append_cancel_right hd
  cases a with
  | mk da =>
    cases b with
    | mk db => exact congrArg String.mk hcancel

lemma maName_inj {a b : String} {w : ℕ} (h : maName a w = maName b w) : a = b := by
  unfold maName at h
  rw [String.append_assoc, String.append_assoc] at h
  exact str_append_right_cancel h

lemma mapM_id_all : ∀ {ws : List (Option ℚ)},
    ws.all (fun o => o.isSome) = true →
    ws.mapM id = some (someVals ws) ∧ (someVals ws).length = ws.length := by
  intro ws
  induction ws with
  | nil =>
    intro _
    exact ⟨rfl, rfl⟩
  | cons o t ih =>
    intro h
    rw [List.all_cons, Bool.and_eq_true] at h
    cases o with
    | none => simp at h
    | some a =>
      have ht := ih h.2
      have hmap : (some a :: t).mapM id = some (a :: someVals t) := by
        rw [List.mapM_cons, ht.1]
        rfl
      refine ⟨by rw [hmap]; rfl, ?_⟩
      have hv : someVals (some a :: t) = a :: someVals t := rfl
      rw [hv, List.length_cons, ht.2, List.length_cons]

lemma mapM_id_not_all : ∀ {ws : List (Option ℚ)},
    ws.all (fun o => o.isSome) = false → ws.mapM id = none := by
  intro ws
  induction ws with
  | nil =>
    intro h
    simp at h
  | cons o t ih =>
    intro h
    cases o with
    | none => rfl
    | some a =>
      rw [List.all_cons] at h
      have ht : t.all (fun o => o.isSome) = false := by simpa using h
      rw [List.mapM_cons, ih ht]
      rfl

lemma naMean_all_some {win : List (Option ℚ)}
    (hall : win.all (fun o => o.isSome) = true) :
    naMean win = if someVals win = [] then none
      else some ((someVals win).sum / ((someVals win).length : ℚ)) := by
  unfold naMean
  rw [(mapM_id_all hall).1]
  rfl

lemma naMean_not_all {win : List (Option ℚ)}
    (h : win.all (fun o => o.isSome) = false) : naMean win = none := by
  unfold naMean
  rw [mapM_id_not_all h]
  rfl

lemma rollingMean_length (w : ℕ) (xs : List (Option ℚ)) :
    (rollingMean w xs).length = xs.length := by
  simp [rollingMean]

lemma rollingMean_getD (w : ℕ) (xs : List (Option ℚ)) (j : ℕ)
    (hj : j < xs.length) :
    (rollingMean w xs).getD j none =
      (if w = 0 ∨ j + 1 < w then none
       else if ((xs.drop (j + 1 - w)).take w).all (fun o => o.isSome) then
         some ((someVals ((xs.drop (j + 1 - w)).take w)).sum / (w : ℚ))
       else none) := by
  unfold rollingMean
  rw [List.getD_eq_getElem?_getD, List.getElem?_map, List.getElem?_range hj]
  rfl

/-- Every rolling entry from position `w - 1` on is exactly the float mean
of its trailing window of raw values, for every window size including 0
(where the empty window's mean is missing). -/
lemma rollingMean_entry_naMean (w : ℕ) (xs : List (Option ℚ)) (j : ℕ)
    (hjlen : j < xs.length) (hj : w ≤ j + 1) :
    (rollingMean w xs).getD j none = naMean ((xs.drop (j + 1 - w)).take w) := by
  rw [rollingMean_getD w xs j hjlen]
  by_cases hw : w = 0
  · subst hw
    rw [if_pos (Or.inl rfl), List.take_zero]
    rfl
  · rw [if_neg (by omega)]
    have hwinlen : ((xs.drop (j + 1 - w)).take w).length = w := by
      simp only [List.length_take, List.length_drop]
      omega
    cases hall : ((xs.drop (j + 1 - w)).take w).all (fun o => o.isSome) with
    | true =>
      rw [if_pos rfl, naMean_all_some hall]
      have hlen2 : (someVals ((xs.drop (j + 1 - w)).take w)).length = w := by
        rw [(mapM_id_all hall).2, hwinlen]
      have hne2 : ¬ someVals ((xs.drop (j + 1 - w)).take w) = [] := by
        intro h0
        rw [h0] at hlen2
        exact hw (by simpa using hlen2.symm)
      rw [if_neg hne2, hlen2]
    | false =>
      rw [if_neg (by simp), naMean_not_all hall]

/-- C7 counterexample: on an empty table that still declares a column,
`calculate_moving_average` returns the bare empty DataFrame, so the original
column is not preserved and no moving-average column is appended. -/
theorem moving_average_empty_table_cex :
    calculateMovingAverage ⟨[], [⟨"A", true, []⟩]⟩ 3 none = emptyTable ∧
    (calculateMovingAverage ⟨[], [⟨"A", true, []⟩]⟩ 3 none).cols = [] ∧
    (⟨[], [⟨"A", true, []⟩]⟩ : SalesTable).cols ≠ [] :=
  ⟨rfl, rfl, by decide⟩

/-- C7 (amended to non-empty input tables): `calculate_moving_average`
keeps the index (and hence the row count) unchanged and performs one column
assignment `"<col>_MA<window>"` per selected column, appended on the right
when the name is new and overwriting the same-named column in place
otherwise.  The selected columns are: the named column alone when the
argument is a non-empty string naming a present numeric column; none at all
when it names a present non-numeric column (`rolling` raises and the
handler returns the input unchanged); otherwise — no argument, empty-string
argument (Python falsy), or absent name — every numeric column (for the
batch form, column names are assumed distinct, the data model's keying
invariant; the no-collision special case reduces to a plain append).  Each
assigned column has one entry per input row; its first `window - 1` entries
are missing, and its entry at every later row is the float mean of the
`window` trailing raw values by row position — missing when the window is
empty (window 0) or contains a missing value — for every window size. -/
theorem moving_average_spec (df : SalesTable) (w : ℕ) (column : Option String)
    (hne : isEmptySales df = false) :
    (∀ cn c, column = some cn → cn ≠ "" →
      df.cols.find? (fun d => d.name = cn) = some c → c.numeric = true →
      calculateMovingAverage df w column =
        ⟨df.index,
         if maName cn w ∈ df.cols.map Col.name then
           df.cols.map (fun d =>
             if d.name = maName cn w then ⟨maName cn w, true, rollingMean w c.vals⟩
             else d)
         else df.cols ++ [⟨maName cn w, true, rollingMean w c.vals⟩]⟩) ∧
    (∀ cn c, column = some cn → cn ≠ "" →
      df.cols.find? (fun d => d.name = cn) = some c → c.numeric = false →
      calculateMovingAverage df w column = df) ∧
    ((column = none ∨ ∃ cn, column = some cn ∧
        (cn = "" ∨ df.cols.find? (fun d => d.name = cn) = none)) →
      (df.cols.map Col.name).Nodup →
      calculateMovingAverage df w column =
        ⟨df.index, assignCols df.cols ((numericCols df).map
          (fun c => (maName c.name w, rollingMean w c.vals)))⟩) ∧
    ((column = none ∨ ∃ cn, column = some cn ∧
        (cn = "" ∨ df.cols.find? (fun d => d.name = cn) = none)) →
      (df.cols.map Col.name).Nodup →
      (∀ c ∈ numericCols df, maName c.name w ∉ df.cols.map Col.name) →
      calculateMovingAverage df w column =
        ⟨df.index, df.cols ++ (numericCols df).map
          (fun c => ⟨maName c.name w, true, rollingMean w c.vals⟩)⟩) ∧
    (∀ xs : List (Option ℚ), (rollingMean w xs).length = xs.length) ∧
    (∀ (xs : List (Option ℚ)) (j : ℕ), j < xs.length → j + 1 < w →
      (rollingMean w xs).getD j none = none) ∧
    (∀ (xs : List (Option ℚ)) (j : ℕ), j < xs.length → w ≤ j + 1 →
      (rollingMean w xs).getD j none = naMean ((xs.drop (j + 1 - w)).take w)) := by
  have hallred : (column = none ∨ ∃ cn, column = some cn ∧
      (cn = "" ∨ df.cols.find? (fun d => d.name = cn) = none)) →
      calculateMovingAverage df w column = movingAverageAll df w := by
    intro hB
    rcases hB with rfl | ⟨cn, rfl, hcase⟩
    · simp only [calculateMovingAverage]
      rw [if_neg (by simp [hne])]
    · simp only [calculateMovingAverage]
      rw [if_neg (by simp [hne])]
      by_cases hcn : cn = ""
      · rw [if_neg (not_not_intro hcn)]
      · rcases hcase with h1 | h2
        · exact absurd h1 hcn
        · rw [if_pos hcn, h2]
          rfl
  have hgeneral : ∀ (hB : column = none ∨ ∃ cn, column = some cn ∧
      (cn = "" ∨ df.cols.find? (fun d => d.name = cn) = none)),
      (df.cols.map Col.name).Nodup →
      calculateMovingAverage df w column =
        ⟨df.index, assignCols df.cols ((numericCols df).map
          (fun c => (maName c.name w, rollingMean w c.vals)))⟩ := by
    intro hB hnodup
    have h1 : ((numericCols df).map Col.name).Nodup :=
      List.Nodup.sublist (List.Sublist.map Col.name (List.filter_sublist df.cols))
        hnodup
    have hAnodup : (((numericCols df).map
        (fun c => (maName c.name w, rollingMean w c.vals))).map Prod.fst).Nodup := by
      rw [List.map_map]
      rw [show (Prod.fst ∘ fun c : Col => (maName c.name w, rollingMean w c.vals)) =
        ((fun n => maName n w) ∘ Col.name) from rfl]
      rw [← List.map_map]
      exact List.Nodup.map (fun x y hxy => maName_inj hxy) h1
    rw [hallred hB]
    unfold movingAverageAll
    have hfold : (numericCols df).foldl
        (fun acc c => setCol acc (maName c.name w) (rollingMean w c.vals)) df.cols =
        ((numericCols df).map (fun c => (maName c.name w, rollingMean w c.vals))).foldl
          (fun a q => setCol a q.1 q.2) df.cols := by
      rw [List.foldl_map]
    rw [hfold, foldl_setCol_assign _ _ hAnodup]
  refine ⟨?_, ?_, hgeneral, ?_, rollingMean_length w, ?_, ?_⟩
  · intro cn c hcol hcn hfind hnum
    subst hcol
    simp only [calculateMovingAverage]
    rw [if_neg (by simp [hne]), if_pos hcn, hfind]
    simp only [movingAverageNamed]
    rw [if_pos hnum]
    by_cases hm : maName cn w ∈ df.cols.map Col.name
    · rw [if_pos hm, setCol_overwrite (any_name_iff_mem.mpr hm)]
    · have hanyf : df.cols.any (fun d => d.name = maName cn w) = false := by
        cases hh : df.cols.any (fun d => d.name = maName cn w)
        · rfl
        · exact absurd (any_name_iff_mem.mp hh) hm
      rw [if_neg hm, setCol_append hanyf]
  · intro cn c hcol hcn hfind hnum
    subst hcol
    simp only [calculateMovingAverage]
    rw [if_neg (by simp [hne]), if_pos hcn, hfind]
    simp only [movingAverageNamed]
    rw [if_neg (by simp [hnum])]
  · intro hB hnodup hfresh
    rw [hgeneral hB hnodup]
    congr 1
    unfold assignCols
    have hmapid : df.cols.map (applyAssign ((numericCols df).map
        (fun c => (maName c.name w, rollingMean w c.vals)))) = df.cols := by
      have hpt : ∀ d ∈ df.cols,
          applyAssign ((numericCols df).map
            (fun c => (maName c.name w, rollingMean w c.vals))) d = d := by
        intro d hd
        have hnm : d.name ∉ ((numericCols df).map
            (fun c => (maName c.name w, rollingMean w c.vals))).map Prod.fst := by
          intro hmem
          rw [List.map_map] at hmem
          rcases List.mem_map.mp hmem with ⟨c, hc, hcn2⟩
          refine hfresh c hc ?_
          rw [show maName c.name w = d.name from hcn2]
          exact List.mem_map.mpr ⟨d, hd, rfl⟩
        unfold applyAssign
        rw [find?_name_eq_none hnm]
      calc df.cols.map (applyAssign ((numericCols df).map
            (fun c => (maName c.name w, rollingMean w c.vals))))
          = df.cols.map (fun d => d) := List.map_congr_left hpt
        _ = df.cols := List.map_id' _
    have hfiltall : ((numericCols df).map
        (fun c => (maName c.name w, rollingMean w c.vals))).filter
          (fun q => !(df.cols.any (fun d => d.name = q.1))) =
        (numericCols df).map (fun c => (maName c.name w, rollingMean w c.vals)) := by
      refine List.filter_eq_self.mpr (fun q hq => ?_)
      rcases List.mem_map.mp hq with ⟨c, hc, rfl⟩
      have hany : df.cols.any (fun d => d.name = maName c.name w) = false := by
        cases hh : df.cols.any (fun d => d.name = maName c.name w)
        · rfl
        · exact absurd (any_name_iff_mem.mp hh) (hfresh c hc)
      simp [hany]
    rw [hmapid, hfiltall, List.map_map]
    rfl
  · intro xs j hjlen hj
    rw [rollingMean_getD w xs j hjlen, if_pos (Or.inr hj)]
  · intro xs j hjlen hj
    exact rollingMean_entry_naMean w xs j hjlen hj

/-- Witness for `moving_average_spec`: a three-row table with window 3 and a
named column, exercising the fresh-name assignment shape and both
rolling-entry facts. -/
theorem moving_average_spec_witness :
    calculateMovingAverage
        ⟨[10, 11, 12], [⟨"A", true, [some 100, some 120, some 110]⟩]⟩ 3 (some "A") =
      ⟨[10, 11, 12], [⟨"A", true, [some 100, some 120, some 110]⟩,
        ⟨maName "A" 3, true, rollingMean 3 [some 100, some 120, some 110]⟩]⟩ ∧
    (rollingMean 3 [some 100, some 120, some 110]).getD 0 none = none ∧
    (rollingMean 3 [some 100, some 120, some 110]).getD 2 none =
      naMean (([some 100, some 120, some 110].drop 0).take 3) := by
  have h := moving_average_spec
    ⟨[10, 11, 12], [⟨"A", true, [some 100, some 120, some 110]⟩]⟩ 3 (some "A")
    (by decide)
  refine ⟨?_, ?_, ?_⟩
  · have h1 := h.1 "A" ⟨"A", true, [some 100, some 120, some 110]⟩ rfl
      (by decide) (by decide) (by decide)
    rw [h1, if_neg (by decide)]
    rfl
  · exact h.2.2.2.2.2.1 [some 100, some 120, some 110] 0 (by decide) (by decide)
  · exact h.2.2.2.2.2.2 [some 100, some 120, some 110] 2 (by decide) (by decide)

/-- The pairwise-complete observations of two columns, as pandas `corr`
uses them: the rows where both values are present, in row order. -/
def pairedVals (x y : List (Option ℚ)) : List (ℚ × ℚ) :=
  (x.zip y).filterMap (fun p =>
    match p.1, p.2 with
    | some a, some b => some (a, b)
    | _, _ => none)

/-- Mean of the first components of a paired sample. -/
def pairedMeanFst (p : List (ℚ × ℚ)) : ℚ := (p.map Prod.fst).sum / (p.length : ℚ)

/-- Mean of the second components of a paired sample. -/
def pairedMeanSnd (p : List (ℚ × ℚ)) : ℚ := (p.map Prod.snd).sum / (p.length : ℚ)

/-- Centered cross sum `S_xy` of two columns over their pairwise-complete
observations. -/
def corrSxy (x y : List (Option ℚ)) : ℚ :=
  ((pairedVals x y).map (fun q =>
    (q.1 - pairedMeanFst (pairedVals x y)) * (q.2 - pairedMeanSnd (pairedVals x y)))).sum

/-- Centered square sum `S_xx` of the first column over the
pairwise-complete observations. -/
def corrSxx (x y : List (Option ℚ)) : ℚ :=
  ((pairedVals x y).map (fun q => (q.1 - pairedMeanFst (pairedVals x y)) ^ 2)).sum

/-- Centered square sum `S_yy` of the second column over the
pairwise-complete observations. -/
def corrSyy (x y : List (Option ℚ)) : ℚ :=
  ((pairedVals x y).map (fun q => (q.2 - pairedMeanSnd (pairedVals x y)) ^ 2)).sum

/-- One Pearson correlation entry of `df.corr()`:
`S_xy / (sqrt S_xx * sqrt S_yy)` over the pairwise-complete observations
(real-valued because of the square roots; a zero denominator yields the
junk value 0 standing for the float NaN, never touched by the claims). -/
noncomputable def corrEntry (x y : List (Option ℚ)) : ℝ :=
  ((corrSxy x y : ℚ) : ℝ) /
    (Real.sqrt ((corrSxx x y : ℚ) : ℝ) * Real.sqrt ((corrSyy x y : ℚ) : ℝ))

/-- Embedding of `calculate_correlation_matrix` (src/analysis.py lines
248-269): an empty input yields an empty result, otherwise the column-labeled
matrix of pairwise Pearson correlations over the numeric columns. -/
noncomputable def calculateCorrelationMatrix (df : SalesTable) :
    List String × List (List ℝ) :=
  if isEmptySales df then ([], [])
  else
    ((numericCols df).map Col.name,
     (numericCols df).map (fun ci =>
       (numericCols df).map (fun cj => corrEntry ci.vals cj.vals)))

/-- The matrix entry at row `i`, column `j` (0 outside the matrix). -/
noncomputable def entryAt (M : List String × List (List ℝ)) (i j : ℕ) : ℝ :=
  (M.2.getD i []).getD j 0

lemma pairedVals_self (x : List (Option ℚ)) :
    pairedVals x x = (someVals x).map (fun a => (a, a)) := by
  induction x with
  | nil => rfl
  | cons o t ih =>
    cases o with
    | none =>
      simp only [pairedVals, someVals, List.zip_cons_cons, List.filterMap_cons]
        at ih ⊢
      exact ih
    | some a =>
      simp only [pairedVals, someVals, List.zip_cons_cons, List.filterMap_cons,
        id_eq, List.map_cons] at ih ⊢
      rw [ih]

lemma pairedVals_swap (x y : List (Option ℚ)) :
    pairedVals y x = (pairedVals x y).map Prod.swap := by
  unfold pairedVals
  rw [← List.zip_swap x y, List.filterMap_map, List.map_filterMap]
  refine List.filterMap_congr (fun p _ => ?_)
  rcases p with ⟨o1, o2⟩
  cases o1 <;> cases o2 <;> rfl

lemma map_fst_map_swap (P : List (ℚ × ℚ)) :
    (P.map Prod.swap).map Prod.fst = P.map Prod.snd := by
  simp [List.map_map, Function.comp_def]

lemma map_snd_map_swap (P : List (ℚ × ℚ)) :
    (P.map Prod.swap).map Prod.snd = P.map Prod.fst := by
  simp [List.map_map, Function.comp_def]

lemma pairedMeanFst_swap (P : List (ℚ × ℚ)) :
    pairedMeanFst (P.map Prod.swap) = pairedMeanSnd P := by
  unfold pairedMeanFst pairedMeanSnd
  rw [map_fst_map_swap, List.length_map]

lemma pairedMeanSnd_swap (P : List (ℚ × ℚ)) :
    pairedMeanSnd (P.map Prod.swap) = pairedMeanFst P := by
  unfold pairedMeanFst pairedMeanSnd
  rw [map_snd_map_swap, List.length_map]

lemma corrSxy_symm (x y : List (Option ℚ)) : corrSxy y x = corrSxy x y := by
  unfold corrSxy
  rw [pairedVals_swap, pairedMeanFst_swap, pairedMeanSnd_swap, List.map_map]
  refine congrArg List.sum (List.map_congr_left (fun q _ => ?_))
  simp [Function.comp_def, mul_comm]

lemma corrSxx_swap (x y : List (Option ℚ)) : corrSxx y x = corrSyy x y := by
  unfold corrSxx corrSyy
  rw [pairedVals_swap, pairedMeanFst_swap, List.map_map]
  refine congrArg List.sum (List.map_congr_left (fun q _ => ?_))
  simp [Function.comp_def]

lemma corrSyy_swap (x y : List (Option ℚ)) : corrSyy y x = corrSxx x y := by
  unfold corrSxx corrSyy
  rw [pairedVals_swap, pairedMeanSnd_swap, List.map_map]
  refine congrArg List.sum (List.map_congr_left (fun q _ => ?_))
  simp [Function.comp_def]

lemma corrEntry_symm (x y : List (Option ℚ)) : corrEntry y x = corrEntry x y := by
  unfold corrEntry
  rw [corrSxy_symm x y, corrSxx_swap x y, corrSyy_swap x y, mul_comm]

lemma pairedMeanFst_self (x : List (Option ℚ)) :
    pairedMeanFst (pairedVals x x) = cMean x := by
  unfold pairedMeanFst cMean cSum cCount
  rw [pairedVals_self, List.map_map, List.length_map]
  simp [Function.comp_def]

lemma corrS_self (x : List (Option ℚ)) :
    corrSxy x x = ((someVals x).map (fun v => (v - cMean x) ^ 2)).sum ∧
    corrSxx x x = ((someVals x).map (fun v => (v - cMean x) ^ 2)).sum ∧
    corrSyy x x = ((someVals x).map (fun v => (v - cMean x) ^ 2)).sum := by
  have hsnd : pairedMeanSnd (pairedVals x x) = cMean x := by
    unfold pairedMeanSnd cMean cSum cCount
    rw [pairedVals_self, List.map_map, List.length_map]
    simp [Function.comp_def]
  refine ⟨?_, ?_, ?_⟩
  · simp only [corrSxy]
    rw [pairedMeanFst_self, hsnd, pairedVals_self, List.map_map]
    refine congrArg List.sum (List.map_congr_left (fun v _ => ?_))
    simp only [Function.comp_def]
    ring
  · simp only [corrSxx]
    rw [pairedMeanFst_self, pairedVals_self, List.map_map]
    refine congrArg List.sum (List.map_congr_left (fun v _ => ?_))
    simp only [Function.comp_def]
  · simp only [corrSyy]
    rw [hsnd, pairedVals_self, List.map_map]
    refine congrArg List.sum (List.map_congr_left (fun v _ => ?_))
    simp only [Function.comp_def]

lemma corrEntry_self {xs : List (Option ℚ)} {V : ℚ} (hV : cVar xs = some V)
    (hVne : V ≠ 0) : corrEntry xs xs = 1 := by
  have hS := corrS_self xs
  set S : ℚ := ((someVals xs).map (fun v => (v - cMean xs) ^ 2)).sum with hSdef
  have hSnonneg : (0 : ℚ) ≤ S := by
    refine List.sum_nonneg (fun a ha => ?_)
    rcases List.mem_map.mp ha with ⟨v, _, rfl⟩
    exact sq_nonneg _
  have hSne : S ≠ 0 := by
    intro hS0
    unfold cVar at hV
    by_cases hc : cCount xs ≤ 1
    · rw [if_pos hc] at hV
      cases hV
    · rw [if_neg hc] at hV
      have := (Option.some.inj hV).symm
      rw [← hSdef, hS0, zero_div] at this
      exact hVne this
  have hSpos : (0 : ℚ) < S := lt_of_le_of_ne hSnonneg (Ne.symm hSne)
  have hSposR : (0 : ℝ) < ((S : ℚ) : ℝ) := by exact_mod_cast hSpos
  unfold corrEntry
  rw [hS.1, hS.2.1, hS.2.2, Real.mul_self_sqrt (le_of_lt hSposR),
    div_self (ne_of_gt hSposR)]

lemma entryAt_empty (i j : ℕ) :
    entryAt (([], []) : List String × List (List ℝ)) i j = 0 := by
  simp [entryAt]

lemma entryAt_in_range (df : SalesTable) (hne : isEmptySales df = false)
    (i j : ℕ) (ci cj : Col) (hi : (numericCols df)[i]? = some ci)
    (hj : (numericCols df)[j]? = some cj) :
    entryAt (calculateCorrelationMatrix df) i j = corrEntry ci.vals cj.vals := by
  unfold entryAt calculateCorrelationMatrix
  rw [if_neg (by simp [hne])]
  simp only []
  rw [List.getD_eq_getElem?_getD, List.getD_eq_getElem?_getD,
    List.getElem?_map, hi, Option.map_some', Option.getD_some,
    List.getElem?_map, hj, Option.map_some', Option.getD_some]

lemma getD_out_of_range (l : List (List ℝ)) (n : ℕ) (d : List ℝ)
    (h : l.length ≤ n) : l.getD n d = d := by
  rw [List.getD_eq_getElem?_getD, List.getElem?_eq_none h]
  rfl

lemma getD_out_of_range' (l : List ℝ) (n : ℕ) (d : ℝ) (h : l.length ≤ n) :
    l.getD n d = d := by
  rw [List.getD_eq_getElem?_getD, List.getElem?_eq_none h]
  rfl

lemma entryAt_out_left (df : SalesTable) (hne : isEmptySales df = false)
    (i j : ℕ) (hi : (numericCols df).length ≤ i) :
    entryAt (calculateCorrelationMatrix df) i j = 0 := by
  unfold entryAt calculateCorrelationMatrix
  rw [if_neg (by simp [hne])]
  simp only []
  have hrowD : (List.map (fun ci =>
      List.map (fun cj => corrEntry ci.vals cj.vals) (numericCols df))
      (numericCols df)).getD i [] = [] :=
    getD_out_of_range _ _ _ (by simpa using hi)
  rw [hrowD]
  rfl

lemma entryAt_out_right (df : SalesTable) (hne : isEmptySales df = false)
    (i j : ℕ) (hj : (numericCols df).length ≤ j) :
    entryAt (calculateCorrelationMatrix df) i j = 0 := by
  by_cases hi : i < (numericCols df).length
  · have hisome : (numericCols df)[i]? = some ((numericCols df).get ⟨i, hi⟩) := by
      rw [List.getElem?_eq_getElem hi]
      rfl
    unfold entryAt calculateCorrelationMatrix
    rw [if_neg (by simp [hne])]
    simp only []
    have hrowD : (List.map (fun ci =>
        List.map (fun cj => corrEntry ci.vals cj.vals) (numericCols df))
        (numericCols df)).getD i [] =
        List.map (fun cj => corrEntry ((numericCols df).get ⟨i, hi⟩).vals cj.vals)
          (numericCols df) := by
      rw [List.getD_eq_getElem?_getD, List.getElem?_map, hisome,
        Option.map_some', Option.getD_some]
    rw [hrowD, getD_out_of_range' _ _ _ (by simpa using hj)]
  · exact entryAt_out_left df hne i j (le_of_not_lt hi)

/-- C9: the matrix of `calculate_correlation_matrix` is square over the
numeric columns and symmetric, every diagonal entry of a numeric column with
nonzero (sample) variance equals 1, and an empty input yields an empty
result. -/
theorem correlation_matrix_spec (df : SalesTable) :
    (calculateCorrelationMatrix df).2.length =
      (calculateCorrelationMatrix df).1.length ∧
    (∀ row ∈ (calculateCorrelationMatrix df).2,
      row.length = (calculateCorrelationMatrix df).1.length) ∧
    (∀ i j : ℕ, entryAt (calculateCorrelationMatrix df) i j =
      entryAt (calculateCorrelationMatrix df) j i) ∧
    (∀ (i : ℕ) (c : Col) (V : ℚ), isEmptySales df = false →
      (numericCols df)[i]? = some c → cVar c.vals = some V → V ≠ 0 →
      entryAt (calculateCorrelationMatrix df) i i = 1) ∧
    (isEmptySales df = true → calculateCorrelationMatrix df = ([], [])) := by
  refine ⟨?_, ?_, ?_, ?_, ?_⟩
  · unfold calculateCorrelationMatrix
    split <;> simp
  · intro row hrow
    unfold calculateCorrelationMatrix at hrow ⊢
    split at hrow
    · cases hrow
    · rcases List.mem_map.mp hrow with ⟨c, _, rfl⟩
      split
      · simp_all
      · simp
  · intro i j
    cases hemp : isEmptySales df with
    | true =>
      unfold calculateCorrelationMatrix
      rw [if_pos hemp]
      rw [entryAt_empty, entryAt_empty]
    | false =>
      by_cases hi : i < (numericCols df).length
      · by_cases hj : j < (numericCols df).length
        · have hisome : (numericCols df)[i]? = some ((numericCols df).get ⟨i, hi⟩) := by
            rw [List.getElem?_eq_getElem hi]
            rfl
          have hjsome : (numericCols df)[j]? = some ((numericCols df).get ⟨j, hj⟩) := by
            rw [List.getElem?_eq_getElem hj]
            rfl
          rw [entryAt_in_range df hemp i j _ _ hisome hjsome,
            entryAt_in_range df hemp j i _ _ hjsome hisome, corrEntry_symm]
        · rw [entryAt_out_right df hemp i j (le_of_not_lt hj),
            entryAt_out_left df hemp j i (le_of_not_lt hj)]
      · rw [entryAt_out_left df hemp i j (le_of_not_lt hi),
          entryAt_out_right df hemp j i (le_of_not_lt hi)]
  · intro i c V hne hi hV hVne
    rw [entryAt_in_range df hne i i c c hi hi]
    exact corrEntry_self hV hVne
  · intro hemp
    unfold calculateCorrelationMatrix
    rw [if_pos hemp]

/-- Witness for `correlation_matrix_spec`: the diagonal entry of a concrete
two-row column with nonzero variance equals 1, and the empty branch at the
empty table. -/
theorem correlation_matrix_spec_witness :
    entryAt (calculateCorrelationMatrix
      ⟨[0, 1], [⟨"A", true, [some 1, some 3]⟩]⟩) 0 0 = 1 ∧
    calculateCorrelationMatrix emptyTable = ([], []) :=
  ⟨(correlation_matrix_spec ⟨[0, 1], [⟨"A", true, [some 1, some 3]⟩]⟩).2.2.2.1
      0 ⟨"A", true, [some 1, some 3]⟩ 2 (by decide) (by decide)
      (by norm_num [cVar, cCount, someVals, cMean, cSum, List.filterMap_cons,
        id_eq, List.sum_cons, List.sum_nil]) (by norm_num),
   (correlation_matrix_spec emptyTable).2.2.2.2 (by decide)⟩

/-- Python `str.lower()` restricted to the Latin and Cyrillic letters this
code base compares (src/data_loader.py line 60 applies it to header names). -/
def lowerChar (c : Char) : Char :=
  if 'A' ≤ c ∧ c ≤ 'Z' then Char.ofNat (c.toNat + 32)
  else if 'А' ≤ c ∧ c ≤ 'Я' then Char.ofNat (c.toNat + 32)
  else if c = 'Ё' then 'ё'
  else c

/-- Lower-case a header name character-wise. -/
def lowerStr (s : String) : String := String.mk (s.toList.map lowerChar)

/-- Python substring containment `pat in s`. -/
def strHasSub (s pat : String) : Bool := decide (pat.toList <:+: s.toList)

/-- The date-column name test of `load_sales_data` (lines 59-64): the
lowered header contains a date/time token, or the header is the literal
sentinel `Unnamed: 0` spreadsheet readers give an unnamed first column. -/
def isDateName (s : String) : Bool :=
  strHasSub (lowerStr s) "дата" || strHasSub (lowerStr s) "date" ||
    strHasSub (lowerStr s) "время" || s = "Unnamed: 0"

/-- The failure conditions of `load_sales_data`, one per `raise` site. -/
inductive LoadError where
  | unsupportedFormat
  | fileNotFound (p : String)
  | dataFileNotFound
  | firstColNoDates
  | noDateColumn
  | unparseableDates
  | noNumericColumns
deriving DecidableEq

/-- The message of each raised error (the dynamic pandas text of a full
date-parse failure is abstracted by a fixed description). -/
def errText : LoadError → String
  | .unsupportedFormat => "Поддерживаются только файлы .xlsx, .xls и .csv"
  | .fileNotFound p => "Файл " ++ p ++ " не найден"
  | .dataFileNotFound => "Файл данных не найден. Пожалуйста, загрузите файл."
  | .firstColNoDates => "Первый столбец не содержит распознаваемые даты"
  | .noDateColumn => "Столбец с датами не найден"
  | .unparseableDates => "Не удалось преобразовать столбец Дата в даты"
  | .noNumericColumns => "Не найдены числовые столбцы с данными"

/-- The human-readable message shown by the boundary handler
(`st.error(f"Ошибка при загрузке данных: {str(e)}")`). -/
def loadMessage (e : LoadError) : String :=
  "Ошибка при загрузке данных: " ++ errText e

/-- An in-memory uploaded file: its name drives format dispatch, its parsed
content abstracts the spreadsheet/CSV reader. -/
structure UploadedFile where
  name : String
  content : RawTable

/-- Python `str.endswith`. -/
def srcEndsWith (s pat : String) : Bool := decide (pat.toList <:+ s.toList)

/-- The bundled default data file path. -/
def defaultDataPath : String := "docs/sample_sales_data.xlsx"

/-- The source dispatch of `load_sales_data` (lines 33-52): an uploaded file
wins and is routed by extension; else a local path must exist; else the
bundled default must exist.  `fs` models the file system: the parsed table
of each existing readable path. -/
def readSource (fs : String → Option RawTable) (filePath : Option String)
    (uploaded : Option UploadedFile) : Except LoadError RawTable :=
  match uploaded with
  | some u =>
    if srcEndsWith u.name ".xlsx" || srcEndsWith u.name ".xls" then .ok u.content
    else if srcEndsWith u.name ".csv" then .ok u.content
    else .error .unsupportedFormat
  | none =>
    match filePath with
    | some p =>
      match fs p with
      | some raw => .ok raw
      | none => .error (.fileNotFound p)
    | none =>
      match fs defaultDataPath with
      | some raw => .ok raw
      | none => .error .dataFileNotFound

/-- The first-column fallback of the date-column search (lines 66-73),
dispatching on `df.columns[0]`: accept the first column when its leading
five values all parse as timestamps (`pd.to_datetime(df[first_col].head())`),
fail otherwise; with no columns at all, fall through to the
"no date column" error of line 76. -/
def locateFromFirst : Option RawCol → Except LoadError RawCol
  | some c0 =>
    if (c0.cells.take 5).all (fun cell => cell.asDate.isSome) then .ok c0
    else .error .firstColNoDates
  | none => .error .noDateColumn

/-- The date-column location of `load_sales_data` (lines 54-76): first the
name scan over all columns, in order; failing that, the first-column parse
fallback. -/
def locateDateColumn (t : RawTable) : Except LoadError RawCol :=
  match t.cols.find? (fun c => isDateName c.name) with
  | some c => .ok c
  | none => locateFromFirst t.cols.head?

/-- The normalization tail of `load_sales_data` (lines 78-93): parse the
whole located column to timestamps (hard failure if any cell resists), set
it as the index (removing it from the data columns), and require at least
one numeric data column. -/
def normalizeTable (t : RawTable) : Except LoadError SalesTable :=
  match locateDateColumn t with
  | .error e => .error e
  | .ok dc =>
    match dc.cells.mapM (fun cell => cell.asDate) with
    | none => .error .unparseableDates
    | some idx =>
      let rest := (t.cols.filter (fun c => c.name ≠ dc.name)).map
        (fun c => Col.mk c.name c.numeric (c.cells.map (fun cell => cell.asNum)))
      if (rest.filter (fun c => c.numeric)).isEmpty then .error .noNumericColumns
      else .ok ⟨idx, rest⟩

/-- `load_sales_data` inside its `try`: read the source, then normalize. -/
def loadCore (fs : String → Option RawTable) (filePath : Option String)
    (uploaded : Option UploadedFile) : Except LoadError SalesTable :=
  match readSource fs filePath uploaded with
  | .error e => .error e
  | .ok raw => normalizeTable raw

/-- The full `load_sales_data` (lines 16-97) with its boundary `except`:
every internal failure becomes the empty table plus the handler's message;
a success is returned with no message. -/
def loadSalesData (fs : String → Option RawTable) (filePath : Option String)
    (uploaded : Option UploadedFile) : SalesTable × Option String :=
  match loadCore fs filePath uploaded with
  | .ok t => (t, none)
  | .error e => (emptyTable, some (loadMessage e))

lemma loadMessage_ne_empty (e : LoadError) : loadMessage e ≠ "" := by
  intro h
  unfold loadMessage at h
  have hdata : ("Ошибка при загрузке данных: ").data ++ (errText e).data = [] := by
    have h2 := congrArg String.data h
    rw [String.data_append] at h2
    exact h2
  have h1 := (List.append_eq_nil.mp hdata).1
  exact absurd h1 (by decide)

/-- C4: for every file system and every combination of path and uploaded
file, ingestion is total: either it succeeds with a table and no message, or
every internal failure is converted into the empty table plus a non-empty
human-readable message — nothing escapes the boundary. -/
theorem load_sales_data_total (fs : String → Option RawTable)
    (filePath : Option String) (uploaded : Option UploadedFile) :
    (∃ t, loadCore fs filePath uploaded = .ok t ∧
      loadSalesData fs filePath uploaded = (t, none)) ∨
    (∃ e, loadCore fs filePath uploaded = .error e ∧
      loadSalesData fs filePath uploaded = (emptyTable, some (loadMessage e)) ∧
      loadMessage e ≠ "") := by
  cases h : loadCore fs filePath uploaded with
  | ok t =>
    refine Or.inl ⟨t, rfl, ?_⟩
    unfold loadSalesData
    rw [h]
  | error e =>
    refine Or.inr ⟨e, rfl, ?_, loadMessage_ne_empty e⟩
    unfold loadSalesData
    rw [h]

lemma normalizeTable_error {t : RawTable} {e : LoadError}
    (h : locateDateColumn t = .error e) : normalizeTable t = .error e := by
  unfold normalizeTable
  rw [h]

lemma loadCore_of_read {fs : String → Option RawTable} {fp : Option String}
    {up : Option UploadedFile} {t : RawTable}
    (h : readSource fs fp up = .ok t) :
    loadCore fs fp up = normalizeTable t := by
  unfold loadCore
  rw [h]

/-- C1: the date column is located by priority: (1) if any column name
passes the case-insensitive date/time-token or sentinel test, the first such
column is chosen; (2) otherwise, if the first column exists and its leading
five values all parse as timestamps, the first column is chosen; (3) if
neither step succeeds, location and normalization fail, and ingestion from
any source that reads this table yields no table — only the empty table and
a failure message. -/
theorem date_column_priority (t : RawTable) :
    ((∃ c ∈ t.cols, isDateName c.name = true) →
      ∃ c, t.cols.find? (fun d => isDateName d.name) = some c ∧
        locateDateColumn t = .ok c) ∧
    ((∀ c ∈ t.cols, isDateName c.name = false) →
      ∀ c0, t.cols.head? = some c0 →
        ((c0.cells.take 5).all (fun cell => cell.asDate.isSome)) = true →
        locateDateColumn t = .ok c0) ∧
    ((∀ c ∈ t.cols, isDateName c.name = false) →
      (∀ c0, t.cols.head? = some c0 →
        ((c0.cells.take 5).all (fun cell => cell.asDate.isSome)) = false) →
      ∃ e, (e = LoadError.firstColNoDates ∨ e = LoadError.noDateColumn) ∧
        locateDateColumn t = .error e ∧
        normalizeTable t = .error e ∧
        ∀ (fs : String → Option RawTable) (fp : Option String)
          (up : Option UploadedFile), readSource fs fp up = .ok t →
          loadSalesData fs fp up = (emptyTable, some (loadMessage e))) := by
  refine ⟨?_, ?_, ?_⟩
  · intro hex
    have hsome : (t.cols.find? (fun d => isDateName d.name)).isSome := by
      rw [List.find?_isSome]
      rcases hex with ⟨c, hc, hname⟩
      exact ⟨c, hc, hname⟩
    rcases Option.isSome_iff_exists.mp hsome with ⟨c, hc⟩
    refine ⟨c, hc, ?_⟩
    unfold locateDateColumn
    rw [hc]
  · intro hnone c0 hhead hparse
    have hfind : t.cols.find? (fun d => isDateName d.name) = none :=
      List.find?_eq_none.mpr (fun c hc => by rw [hnone c hc]; exact Bool.false_ne_true)
    unfold locateDateColumn
    rw [hfind, hhead]
    show locateFromFirst (some c0) = .ok c0
    simp only [locateFromFirst]
    rw [if_pos hparse]
  · intro hnone hfail
    have hfind : t.cols.find? (fun d => isDateName d.name) = none :=
      List.find?_eq_none.mpr (fun c hc => by rw [hnone c hc]; exact Bool.false_ne_true)
    have hloc : ∃ e, (e = LoadError.firstColNoDates ∨ e = LoadError.noDateColumn) ∧
        locateDateColumn t = .error e := by
      cases hhead : t.cols.head? with
      | none =>
        refine ⟨.noDateColumn, Or.inr rfl, ?_⟩
        unfold locateDateColumn
        rw [hfind, hhead]
        rfl
      | some c0 =>
        refine ⟨.firstColNoDates, Or.inl rfl, ?_⟩
        unfold locateDateColumn
        rw [hfind, hhead]
        show locateFromFirst (some c0) = .error .firstColNoDates
        simp only [locateFromFirst]
        rw [if_neg (by simp [hfail c0 hhead])]
    rcases hloc with ⟨e, he, hlocate⟩
    refine ⟨e, he, hlocate, normalizeTable_error hlocate, ?_⟩
    intro fs fp up hread
    unfold loadSalesData
    rw [loadCore_of_read hread, normalizeTable_error hlocate]

/-- Witness for `date_column_priority`: three concrete raw tables hitting
the name-scan branch, the first-column-parse branch and the failure branch. -/
theorem date_column_priority_witness :
    (∃ c, (RawTable.mk [⟨"Дата", false, []⟩, ⟨"P", true, []⟩]).cols.find?
        (fun d => isDateName d.name) = some c ∧
      locateDateColumn ⟨[⟨"Дата", false, []⟩, ⟨"P", true, []⟩]⟩ = .ok c) ∧
    locateDateColumn ⟨[⟨"X", true, [⟨some 1, some 1⟩]⟩]⟩ =
      .ok ⟨"X", true, [⟨some 1, some 1⟩]⟩ ∧
    (∃ e, (e = LoadError.firstColNoDates ∨ e = LoadError.noDateColumn) ∧
      locateDateColumn ⟨[⟨"X", true, [⟨none, some 1⟩]⟩]⟩ = .error e ∧
      normalizeTable ⟨[⟨"X", true, [⟨none, some 1⟩]⟩]⟩ = .error e ∧
      ∀ (fs : String → Option RawTable) (fp : Option String)
        (up : Option UploadedFile),
        readSource fs fp up = .ok ⟨[⟨"X", true, [⟨none, some 1⟩]⟩]⟩ →
        loadSalesData fs fp up = (emptyTable, some (loadMessage e))) := by
  refine ⟨?_, ?_, ?_⟩
  · exact (date_column_priority ⟨[⟨"Дата", false, []⟩, ⟨"P", true, []⟩]⟩).1
      (by decide)
  · exact (date_column_priority ⟨[⟨"X", true, [⟨some 1, some 1⟩]⟩]⟩).2.1
      (by decide) ⟨"X", true, [⟨some 1, some 1⟩]⟩ rfl (by decide)
  · refine (date_column_priority ⟨[⟨"X", true, [⟨none, some 1⟩]⟩]⟩).2.2
      (by decide) ?_
    intro c0 hc0
    have h2 : (some (⟨"X", true, [⟨none, some 1⟩]⟩ : RawCol) : Option RawCol) =
        some c0 := hc0
    cases Option.some.inj h2
    decide

end SalesSpec
